import Mathlib

/-!
Shallow embedding of the 3v3 solo-queue matchmaking composer
(`MatchmakingComposer.h` — the full variant used by the unit-test harness,
with the single-healer fallback and the class-stacking filter — and
`Solo3v3::EnumerateCombinations` from `solo3v3.cpp`).

Machine integers (`uint32_t`) are modelled as `Nat` with explicit `% 2^32`
where the C++ arithmetic can wrap (the `teamSize * 2` product, the
`joinTime + timer` sums, and the `teamSize*2 - healersNeeded` subtraction).
`int64_t` MMR sums are modelled as exact `Nat` sums: the C++ widens to 64
bits precisely so that sums of `uint32_t` ratings never overflow there.
-/

namespace ArenaSolo

/-- Modulus of the C++ `uint32_t` arithmetic. -/
def U32 : Nat := 4294967296

/-- `enum class PlayerRole : uint8_t { DPS = 0, HEALER = 1 }` -/
inductive PlayerRole where
  | DPS
  | HEALER
deriving DecidableEq, Repr, Inhabited

/-- `struct QueuedCandidate { id; role; mmr; joinTime; classId; }` -/
structure QueuedCandidate where
  id : Nat
  role : PlayerRole
  mmr : Nat
  joinTime : Nat
  classId : Nat
deriving DecidableEq, Repr, Inhabited

/-- The `c.role == PlayerRole::HEALER` test used to bucket candidates. -/
def isHealer (c : QueuedCandidate) : Bool :=
  c.role == PlayerRole.HEALER

/-- The C++ wait-timer test `c.joinTime + timer <= now` on `uint32_t`
(the sum wraps modulo `2^32`). -/
def timerElapsed (joinTime timer now : Nat) : Bool :=
  decide ((joinTime + timer) % U32 ≤ now)

/-- The `teamSize * 2` product on `uint32_t`. -/
def twoTeams (teamSize : Nat) : Nat :=
  (teamSize * 2) % U32

/-- Return value of `SelectCandidates`: the C++ `bool` result together with
the two out-parameters `selected` and `allDpsMatch` as left by the call. -/
structure SelectResult where
  ok : Bool
  selected : List QueuedCandidate
  allDpsMatch : Bool
deriving DecidableEq, Repr

/-- The local `healers` bucket of `SelectCandidates` (FIFO order kept). -/
def healersOf (candidates : List QueuedCandidate) : List QueuedCandidate :=
  candidates.filter isHealer

/-- The local `dps` bucket of `SelectCandidates` (the `else` of the role
test, FIFO order kept). -/
def dpsOf (candidates : List QueuedCandidate) : List QueuedCandidate :=
  candidates.filter (fun c => !isHealer c)

/-- The local `timedDps` list of the fallback branches: the DPS bucket
restricted to candidates whose wait timer has elapsed. -/
def timedDpsOf (candidates : List QueuedCandidate) (timer now : Nat) :
    List QueuedCandidate :=
  (dpsOf candidates).filter (fun c => timerElapsed c.joinTime timer now)

/-- `healersNeeded = (teamSize > 1) ? 2 : 0`. -/
def healersNeeded (teamSize : Nat) : Nat :=
  if 1 < teamSize then 2 else 0

/-- `dpsNeeded = teamSize * 2 - healersNeeded` on `uint32_t`. -/
def dpsNeeded (teamSize : Nat) : Nat :=
  (twoTeams teamSize + U32 - healersNeeded teamSize) % U32

/-- `MatchmakingComposer::SelectCandidates` (Phase 2).  Both out-parameters
are cleared on entry; every `return false` path leaves them `([], false)`,
mirroring the C++ control flow branch by branch. -/
def SelectCandidates (candidates : List QueuedCandidate) (teamSize : Nat)
    (filterTalents : Bool) (allDpsTimer singleHealerDpsTimer now : Nat) :
    SelectResult :=
  if candidates.length < twoTeams teamSize then
    ⟨false, [], false⟩
  else if !filterTalents then
    -- No role filtering: take the first teamSize*2 players (FIFO)
    ⟨true, candidates.take (twoTeams teamSize), false⟩
  else if healersNeeded teamSize ≤ (healersOf candidates).length ∧
      dpsNeeded teamSize ≤ (dpsOf candidates).length then
    -- Standard path: oldest healers + oldest DPS (FIFO within each bucket)
    ⟨true, (healersOf candidates).take (healersNeeded teamSize)
        ++ (dpsOf candidates).take (dpsNeeded teamSize), false⟩
  else if (healersOf candidates).isEmpty then
    -- All-DPS fallback: only include DPS players whose timer has elapsed
    if twoTeams teamSize ≤ (timedDpsOf candidates allDpsTimer now).length then
      ⟨true, (timedDpsOf candidates allDpsTimer now).take (twoTeams teamSize), true⟩
    else
      ⟨false, [], false⟩
  else if (healersOf candidates).length == 1 then
    -- Single-healer fallback: an all-DPS match from DPS whose timer elapsed;
    -- the lone healer stays in queue waiting for a second healer.
    if twoTeams teamSize ≤ (timedDpsOf candidates singleHealerDpsTimer now).length then
      ⟨true, (timedDpsOf candidates singleHealerDpsTimer now).take (twoTeams teamSize), true⟩
    else
      ⟨false, [], false⟩
  else
    ⟨false, [], false⟩

-- Scenario sanity checks (spec §8): 2H+4D succeeds on the standard path;
-- 1H+5D fails; 6 DPS succeed only once the no-healer timer has elapsed.
example :
    (SelectCandidates
      [⟨1, .HEALER, 1500, 0, 0⟩, ⟨2, .HEALER, 1500, 0, 0⟩,
       ⟨3, .DPS, 1500, 0, 0⟩, ⟨4, .DPS, 1500, 0, 0⟩,
       ⟨5, .DPS, 1500, 0, 0⟩, ⟨6, .DPS, 1500, 0, 0⟩]
      3 true 60000 60000 100000).ok = true := by decide

example :
    (SelectCandidates
      [⟨1, .HEALER, 1500, 0, 0⟩,
       ⟨2, .DPS, 1500, 0, 0⟩, ⟨3, .DPS, 1500, 0, 0⟩, ⟨4, .DPS, 1500, 0, 0⟩,
       ⟨5, .DPS, 1500, 0, 0⟩, ⟨6, .DPS, 1500, 0, 0⟩]
      3 true 60000 60000 30000).ok = false := by decide

example :
    (SelectCandidates
      [⟨1, .DPS, 1500, 0, 0⟩, ⟨2, .DPS, 1500, 0, 0⟩, ⟨3, .DPS, 1500, 0, 0⟩,
       ⟨4, .DPS, 1500, 0, 0⟩, ⟨5, .DPS, 1500, 0, 0⟩, ⟨6, .DPS, 1500, 0, 0⟩]
      3 true 60000 60000 65000) =
    ⟨true,
     [⟨1, .DPS, 1500, 0, 0⟩, ⟨2, .DPS, 1500, 0, 0⟩, ⟨3, .DPS, 1500, 0, 0⟩,
      ⟨4, .DPS, 1500, 0, 0⟩, ⟨5, .DPS, 1500, 0, 0⟩, ⟨6, .DPS, 1500, 0, 0⟩],
     true⟩ := by decide

example :
    (SelectCandidates
      [⟨1, .DPS, 1500, 0, 0⟩, ⟨2, .DPS, 1500, 0, 0⟩, ⟨3, .DPS, 1500, 0, 0⟩,
       ⟨4, .DPS, 1500, 0, 0⟩, ⟨5, .DPS, 1500, 0, 0⟩, ⟨6, .DPS, 1500, 0, 0⟩]
      3 true 60000 60000 30000).ok = false := by decide

/-- `MatchmakingComposer::ClassIdToMaskBit`: `1 << (classId-1)` for 1–9,
bit 10 for Druid (11), no bit otherwise. -/
def ClassIdToMaskBit (classId : Nat) : Nat :=
  if 1 ≤ classId ∧ classId ≤ 9 then 2 ^ (classId - 1)
  else if classId = 11 then 2 ^ 10
  else 0

/-- Conflict test for one pair of same-team candidates, i.e. one iteration of
the double loop in `MatchmakingComposer::HasClassStackingConflict`
(`case 2`/`case 3` fall through to `case 4`, `case 5` falls through to
`case 6`, exactly as the C++ `switch` does). -/
def pairConflict (preventLevel classMask : Nat) (a b : QueuedCandidate) : Bool :=
  if a.classId ≠ b.classId then false
  -- Apply optional class filter; 0 means all classes are checked
  else if classMask ≠ 0 ∧ classMask &&& ClassIdToMaskBit a.classId = 0 then false
  else
    let aIsMelee := a.role == PlayerRole.DPS
    let aIsHealer := a.role == PlayerRole.HEALER
    let bIsMelee := b.role == PlayerRole.DPS
    let bIsHealer := b.role == PlayerRole.HEALER
    match preventLevel with
    | 1 => true
    | 2 | 3 | 4 => aIsMelee && bIsMelee
    | 5 | 6 => (aIsMelee || aIsHealer) && (bIsMelee || bIsHealer)
    | _ => false

/-- The `i < j` double loop of `HasClassStackingConflict`, expressed over the
list of team members. -/
def anyPairConflict (preventLevel classMask : Nat) :
    List QueuedCandidate → Bool
  | [] => false
  | a :: rest =>
    rest.any (pairConflict preventLevel classMask a)
      || anyPairConflict preventLevel classMask rest

/-- `MatchmakingComposer::HasClassStackingConflict` over a team given as
indices into the selected pool. -/
def HasClassStackingConflict (indices : List Nat)
    (pool : List QueuedCandidate) (preventLevel classMask : Nat) : Bool :=
  anyPairConflict preventLevel classMask
    (indices.map (fun i => pool.getD i default))

/-- The complement scan both `Enumerate` and `FindBestTeamSplit` use to build
team 2: walk `i` over the index range, skipping `i` when it is the next entry
of the (strictly increasing) team-1 list. -/
def scanComp : List Nat → List Nat → List Nat
  | [], _ => []
  | i :: is, [] => i :: scanComp is []
  | i :: is, c :: cs => if c = i then scanComp is cs else i :: scanComp is (c :: cs)

/-- The combinations `Enumerate` visits: the recursion
`for (i = start; i <= n - (teamSize - depth); ++i)` produces, in this visit
order, every strictly increasing `k`-element index list drawn from
`[start, n)` (the loop bound `i <= n - remaining` leaves room for the
`remaining - 1` still-unpicked indices). -/
def combosFrom (n : Nat) : Nat → Nat → List (List Nat)
  | _start, 0 => [[]]
  | start, k + 1 =>
    (List.range' start (n - k - start)).flatMap
      (fun i => (combosFrom n (i + 1) k).map (fun t => i :: t))

/-- `sum += selected[i].mmr` over a team's indices (exact: the C++ widens to
`int64_t` so these sums do not wrap). -/
def teamSum (pool : List QueuedCandidate) (indices : List Nat) : Nat :=
  (indices.map (fun i => (pool.getD i default).mmr)).sum

/-- `sum1 > sum2 ? sum1 - sum2 : sum2 - sum1`. -/
def natDiff (a b : Nat) : Nat :=
  if b < a then a - b else b - a

/-- Healer count of a team (`if (selected[i].role == HEALER) ++h`). -/
def countHealersIdx (pool : List QueuedCandidate) (indices : List Nat) : Nat :=
  (indices.filter (fun i => isHealer (pool.getD i default))).length

/-- The `depth == teamSize` filters of `Enumerate`: the healer-balance
constraint (when `filterTalents`) and the class-stacking constraint (when
`preventClassStacking > 0`), applied to a candidate team-1 index list and its
complement. -/
def comboAllowed (pool : List QueuedCandidate) (n : Nat)
    (filterTalents allDpsMatch : Bool) (preventClassStacking classMask : Nat)
    (combo : List Nat) : Bool :=
  let team2 := scanComp (List.range n) combo
  (if filterTalents then
    let h1 := countHealersIdx pool combo
    let h2 := countHealersIdx pool team2
    if allDpsMatch then h1 == 0 && h2 == 0 else h1 == 1 && h2 == 1
  else true)
  && (if 0 < preventClassStacking then
        !(HasClassStackingConflict combo pool preventClassStacking classMask
          || HasClassStackingConflict team2 pool preventClassStacking classMask)
      else true)

/-- `|sum_mmr_team1 - sum_mmr_team2|` for a candidate team-1 index list. -/
def comboDiff (pool : List QueuedCandidate) (n : Nat) (combo : List Nat) : Nat :=
  natDiff (teamSum pool combo) (teamSum pool (scanComp (List.range n) combo))

/-- The by-reference accumulator of `Enumerate`:
`(haveBest, bestDiff, bestTeam1)`. -/
structure EnumState where
  haveBest : Bool
  bestDiff : Nat
  bestTeam1 : List Nat
deriving DecidableEq, Repr

/-- One `depth == teamSize` base case of `Enumerate`: skip the combination if
a filter rejects it, otherwise keep it iff `!haveBest || diff < bestDiff`. -/
def enumStep (pool : List QueuedCandidate) (n : Nat)
    (filterTalents allDpsMatch : Bool) (preventClassStacking classMask : Nat)
    (st : EnumState) (combo : List Nat) : EnumState :=
  if comboAllowed pool n filterTalents allDpsMatch preventClassStacking classMask combo then
    let diff := comboDiff pool n combo
    if !st.haveBest || diff < st.bestDiff then ⟨true, diff, combo⟩ else st
  else st

/-- `MatchmakingComposer::Enumerate`, rephrased as a fold of `enumStep` over
the combinations in the order the C++ recursion visits them. -/
def Enumerate (pool : List QueuedCandidate) (teamSize n : Nat)
    (filterTalents allDpsMatch : Bool) (preventClassStacking classMask : Nat) :
    EnumState :=
  (combosFrom n 0 teamSize).foldl
    (enumStep pool n filterTalents allDpsMatch preventClassStacking classMask)
    ⟨false, 0, []⟩

/-- `struct TeamSplitResult`. -/
structure TeamSplitResult where
  valid : Bool
  team1Indices : List Nat
  team2Indices : List Nat
  mmrDiff : Nat
deriving DecidableEq, Repr

/-- `MatchmakingComposer::FindBestTeamSplit` (Phase 3); its local `n` is
`selected.length` and its local `st` is the `Enumerate` accumulator. -/
def FindBestTeamSplit (selected : List QueuedCandidate) (teamSize : Nat)
    (filterTalents allDpsMatch : Bool)
    (preventClassStacking classMask : Nat) : TeamSplitResult :=
  if selected.length < twoTeams teamSize then
    ⟨false, [], [], 0⟩
  else if !(Enumerate selected teamSize selected.length filterTalents
      allDpsMatch preventClassStacking classMask).haveBest then
    ⟨false, [], [], 0⟩
  else
    -- Build team2 as the complement of team1
    ⟨true,
      (Enumerate selected teamSize selected.length filterTalents
        allDpsMatch preventClassStacking classMask).bestTeam1,
      scanComp (List.range selected.length)
        (Enumerate selected teamSize selected.length filterTalents
          allDpsMatch preventClassStacking classMask).bestTeam1,
      (Enumerate selected teamSize selected.length filterTalents
        allDpsMatch preventClassStacking classMask).bestDiff⟩

-- Scenario sanity checks (spec §8 and the unit tests): uniform ratings split
-- at difference 0; a 2000/1000 healer spread forces difference 1000; four
-- same-class DPS at stacking level 1 admit no valid split.
example :
    (FindBestTeamSplit
      [⟨1, .HEALER, 1500, 0, 0⟩, ⟨2, .HEALER, 1500, 0, 0⟩,
       ⟨3, .DPS, 1500, 0, 0⟩, ⟨4, .DPS, 1500, 0, 0⟩,
       ⟨5, .DPS, 1500, 0, 0⟩, ⟨6, .DPS, 1500, 0, 0⟩]
      3 true false 0 0).mmrDiff = 0 := by decide

example :
    (FindBestTeamSplit
      [⟨1, .HEALER, 2000, 0, 0⟩, ⟨2, .HEALER, 1000, 0, 0⟩,
       ⟨3, .DPS, 1500, 0, 0⟩, ⟨4, .DPS, 1500, 0, 0⟩,
       ⟨5, .DPS, 1500, 0, 0⟩, ⟨6, .DPS, 1500, 0, 0⟩]
      3 true false 0 0).mmrDiff = 1000 := by decide

example :
    (FindBestTeamSplit
      [⟨1, .HEALER, 1500, 0, 5⟩, ⟨2, .HEALER, 1500, 0, 5⟩,
       ⟨3, .DPS, 1500, 0, 1⟩, ⟨4, .DPS, 1500, 0, 1⟩,
       ⟨5, .DPS, 1500, 0, 1⟩, ⟨6, .DPS, 1500, 0, 1⟩]
      3 true false 1 0).valid = false := by decide

example :
    (FindBestTeamSplit
      [⟨1, .HEALER, 1500, 0, 5⟩, ⟨2, .HEALER, 1500, 0, 7⟩,
       ⟨3, .DPS, 1500, 0, 1⟩, ⟨4, .DPS, 1500, 0, 4⟩,
       ⟨5, .DPS, 1500, 0, 1⟩, ⟨6, .DPS, 1500, 0, 8⟩]
      3 true false 1 0).valid = true := by decide

end ArenaSolo

namespace Solo3v3

/-!
The production variant `Solo3v3::EnumerateCombinations` from `solo3v3.cpp`:
same combination search, but the tie-breaker is the mutual-ignore pair count
(`CountIgnorePairs`), and there is no class-stacking filter.  The social
check `a->GetSocial()->HasIgnore(b->GetGUID())` is an external collaborator,
modelled as an abstract relation `hasIgnore` on indices into the selected
pool (the pair of players is determined by the pair of pool indices).
-/

/-- `Solo3v3TalentCat`: the three-way role classification of production. -/
inductive Solo3v3TalentCat where
  | MELEE
  | RANGE
  | HEALER
deriving DecidableEq, Repr, Inhabited

/-- The fields of the production `Candidate` that `EnumerateCombinations`
and `CountIgnorePairs` read (`role`, `mmr`; the `player` behind the social
lookup is abstracted into the `hasIgnore` relation on indices). -/
structure Candidate where
  role : Solo3v3TalentCat
  mmr : Nat
deriving DecidableEq, Repr, Inhabited

/-- The `i < j` double loop of `Solo3v3::CountIgnorePairs`, counting pairs
where either member ignores the other. -/
def ignorePairs (hasIgnore : Nat → Nat → Bool) : List Nat → Nat
  | [] => 0
  | i :: rest =>
    (rest.filter (fun j => hasIgnore i j || hasIgnore j i)).length
      + ignorePairs hasIgnore rest

/-- `Solo3v3::CountIgnorePairs` (returns 0 when `avoidIgnore` is off). -/
def CountIgnorePairs (hasIgnore : Nat → Nat → Bool) (indices : List Nat)
    (avoidIgnore : Bool) : Nat :=
  if !avoidIgnore then 0 else ignorePairs hasIgnore indices

/-- Healer count of a production team. -/
def countHealers (pool : List Candidate) (indices : List Nat) : Nat :=
  (indices.filter
    (fun i => (pool.getD i default).role == Solo3v3TalentCat.HEALER)).length

/-- The composition validation of `EnumerateCombinations` (`filterTalents`
only — production has no class-stacking filter). -/
def prodAllowed (pool : List Candidate) (n : Nat)
    (filterTalents allDpsMatch : Bool) (combo : List Nat) : Bool :=
  if filterTalents then
    let team2 := ArenaSolo.scanComp (List.range n) combo
    let h1 := countHealers pool combo
    let h2 := countHealers pool team2
    if allDpsMatch then h1 == 0 && h2 == 0 else h1 == 1 && h2 == 1
  else true

/-- `|sum_mmr_team1 - sum_mmr_team2|` for a production combination. -/
def prodDiff (pool : List Candidate) (n : Nat) (combo : List Nat) : Nat :=
  ArenaSolo.natDiff
    ((combo.map (fun i => (pool.getD i default).mmr)).sum)
    (((ArenaSolo.scanComp (List.range n) combo).map
        (fun i => (pool.getD i default).mmr)).sum)

/-- The ignore-pair tie-break score of a combination: pairs within team 1
plus pairs within team 2. -/
def prodIgn (hasIgnore : Nat → Nat → Bool) (avoidIgnore : Bool) (n : Nat)
    (combo : List Nat) : Nat :=
  CountIgnorePairs hasIgnore combo avoidIgnore
    + CountIgnorePairs hasIgnore (ArenaSolo.scanComp (List.range n) combo) avoidIgnore

/-- Strict lexicographic order on the `(primary, secondary)` score pair of
`EnumerateCombinations`: strictly better on the rating difference, or equal
there and strictly better on the ignore-pair count. -/
def scoreLt (p q : Nat × Nat) : Prop :=
  p.1 < q.1 ∨ (p.1 = q.1 ∧ p.2 < q.2)

/-- The by-reference accumulator of `EnumerateCombinations`:
`(haveBest, bestDiff, bestIgnores, bestTeam1)`. -/
structure ProdState where
  haveBest : Bool
  bestDiff : Nat
  bestIgnores : Nat
  bestTeam1 : List Nat
deriving DecidableEq, Repr

/-- One `depth == teamSize` base case of `EnumerateCombinations`: keep the
combination iff `!haveBest || diff < bestDiff || (diff == bestDiff && ign <
bestIgnores)`. -/
def prodStep (pool : List Candidate) (n : Nat)
    (filterTalents allDpsMatch avoidIgnore : Bool)
    (hasIgnore : Nat → Nat → Bool) (st : ProdState) (combo : List Nat) :
    ProdState :=
  if prodAllowed pool n filterTalents allDpsMatch combo then
    let diff := prodDiff pool n combo
    let ign := prodIgn hasIgnore avoidIgnore n combo
    if !st.haveBest || diff < st.bestDiff
        || (diff == st.bestDiff && ign < st.bestIgnores) then
      ⟨true, diff, ign, combo⟩
    else st
  else st

/-- `Solo3v3::EnumerateCombinations`, as a fold of `prodStep` over the
combinations in the order the C++ recursion visits them. -/
def EnumerateCombinations (pool : List Candidate) (teamSize n : Nat)
    (filterTalents allDpsMatch avoidIgnore : Bool)
    (hasIgnore : Nat → Nat → Bool) : ProdState :=
  (ArenaSolo.combosFrom n 0 teamSize).foldl
    (prodStep pool n filterTalents allDpsMatch avoidIgnore hasIgnore)
    ⟨false, 0, 0, []⟩

example :
    (EnumerateCombinations
      [⟨.HEALER, 2000⟩, ⟨.HEALER, 1000⟩, ⟨.MELEE, 1500⟩, ⟨.RANGE, 1500⟩,
       ⟨.MELEE, 1500⟩, ⟨.RANGE, 1500⟩]
      3 6 true false false (fun _ _ => false)).bestDiff = 1000 := by decide

end Solo3v3

namespace ArenaSolo

/-- C9: any pool with fewer than `2×teamSize` candidates is rejected by the
very first size check, before any role, rating, timer or flag is consulted. -/
theorem select_insufficient_pool_fails
    (candidates : List QueuedCandidate) (teamSize : Nat)
    (filterTalents : Bool) (allDpsTimer singleHealerDpsTimer now : Nat)
    (hovf : teamSize * 2 < U32)
    (hlen : candidates.length < teamSize * 2) :
    (SelectCandidates candidates teamSize filterTalents allDpsTimer
      singleHealerDpsTimer now).ok = false := by
  have hts2 : twoTeams teamSize = teamSize * 2 := Nat.mod_eq_of_lt hovf
  simp only [SelectCandidates, hts2, if_pos hlen]

/-- Witness for C9 at `teamSize = 3` with a five-candidate pool. -/
theorem select_insufficient_pool_fails_witness :
    (SelectCandidates
      [⟨1, .HEALER, 1500, 0, 0⟩, ⟨2, .HEALER, 1500, 0, 0⟩,
       ⟨3, .DPS, 1500, 0, 0⟩, ⟨4, .DPS, 1500, 0, 0⟩, ⟨5, .DPS, 1500, 0, 0⟩]
      3 true 60000 60000 100000).ok = false :=
  select_insufficient_pool_fails _ 3 true 60000 60000 100000
    (by decide) (by decide)

/-- Path lemma: the initial size check rejects a short pool. -/
lemma select_eq_of_small (candidates : List QueuedCandidate) (teamSize : Nat)
    (filterTalents : Bool) (allDpsTimer singleHealerDpsTimer now : Nat)
    (h1 : candidates.length < twoTeams teamSize) :
    SelectCandidates candidates teamSize filterTalents allDpsTimer
      singleHealerDpsTimer now = ⟨false, [], false⟩ := by
  unfold SelectCandidates
  rw [if_pos h1]

/-- Path lemma: with role filtering off, the first `teamSize*2` candidates
are taken unconditionally. -/
lemma select_eq_of_nofilter (candidates : List QueuedCandidate)
    (teamSize : Nat) (allDpsTimer singleHealerDpsTimer now : Nat)
    (h1 : ¬ candidates.length < twoTeams teamSize) :
    SelectCandidates candidates teamSize false allDpsTimer
      singleHealerDpsTimer now
      = ⟨true, candidates.take (twoTeams teamSize), false⟩ := by
  unfold SelectCandidates
  rw [if_neg h1, if_pos (by decide : (!false) = true)]

/-- Path lemma: the standard path takes the oldest healers and DPS. -/
lemma select_eq_of_std (candidates : List QueuedCandidate) (teamSize : Nat)
    (allDpsTimer singleHealerDpsTimer now : Nat)
    (h1 : ¬ candidates.length < twoTeams teamSize)
    (h3 : healersNeeded teamSize ≤ (healersOf candidates).length ∧
      dpsNeeded teamSize ≤ (dpsOf candidates).length) :
    SelectCandidates candidates teamSize true allDpsTimer
      singleHealerDpsTimer now
      = ⟨true, (healersOf candidates).take (healersNeeded teamSize)
          ++ (dpsOf candidates).take (dpsNeeded teamSize), false⟩ := by
  unfold SelectCandidates
  rw [if_neg h1, if_neg (by decide : ¬ ((!true) = true)), if_pos h3]

/-- Path lemma: the zero-healer fallback branch. -/
lemma select_eq_of_zero_healers (candidates : List QueuedCandidate)
    (teamSize : Nat) (allDpsTimer singleHealerDpsTimer now : Nat)
    (h1 : ¬ candidates.length < twoTeams teamSize)
    (h3 : ¬ (healersNeeded teamSize ≤ (healersOf candidates).length ∧
      dpsNeeded teamSize ≤ (dpsOf candidates).length))
    (h4 : healersOf candidates = []) :
    SelectCandidates candidates teamSize true allDpsTimer
      singleHealerDpsTimer now
      = if twoTeams teamSize ≤ (timedDpsOf candidates allDpsTimer now).length
        then ⟨true, (timedDpsOf candidates allDpsTimer now).take
                (twoTeams teamSize), true⟩
        else ⟨false, [], false⟩ := by
  unfold SelectCandidates
  rw [if_neg h1, if_neg (by decide : ¬ ((!true) = true)), if_neg h3,
    if_pos (by simp [h4] : (healersOf candidates).isEmpty = true)]

/-- Path lemma: the single-healer fallback branch. -/
lemma select_eq_of_one_healer (candidates : List QueuedCandidate)
    (teamSize : Nat) (allDpsTimer singleHealerDpsTimer now : Nat)
    (h1 : ¬ candidates.length < twoTeams teamSize)
    (h3 : ¬ (healersNeeded teamSize ≤ (healersOf candidates).length ∧
      dpsNeeded teamSize ≤ (dpsOf candidates).length))
    (h4 : (healersOf candidates).length = 1) :
    SelectCandidates candidates teamSize true allDpsTimer
      singleHealerDpsTimer now
      = if twoTeams teamSize ≤
            (timedDpsOf candidates singleHealerDpsTimer now).length
        then ⟨true, (timedDpsOf candidates singleHealerDpsTimer now).take
                (twoTeams teamSize), true⟩
        else ⟨false, [], false⟩ := by
  have hne : ¬ (healersOf candidates).isEmpty = true := by
    simp [List.isEmpty_iff, ← List.length_eq_zero, h4]
  unfold SelectCandidates
  rw [if_neg h1, if_neg (by decide : ¬ ((!true) = true)), if_neg h3,
    if_neg hne, if_pos (by simp [h4] : ((healersOf candidates).length == 1) = true)]

/-- Path lemma: two-plus healers with an undersized DPS bucket fail. -/
lemma select_eq_of_many_healers (candidates : List QueuedCandidate)
    (teamSize : Nat) (allDpsTimer singleHealerDpsTimer now : Nat)
    (h1 : ¬ candidates.length < twoTeams teamSize)
    (h3 : ¬ (healersNeeded teamSize ≤ (healersOf candidates).length ∧
      dpsNeeded teamSize ≤ (dpsOf candidates).length))
    (h4 : healersOf candidates ≠ [])
    (h5 : (healersOf candidates).length ≠ 1) :
    SelectCandidates candidates teamSize true allDpsTimer
      singleHealerDpsTimer now = ⟨false, [], false⟩ := by
  have hne : ¬ (healersOf candidates).isEmpty = true := by
    simp [List.isEmpty_iff, h4]
  unfold SelectCandidates
  rw [if_neg h1, if_neg (by decide : ¬ ((!true) = true)), if_neg h3,
    if_neg hne, if_neg (by simp [h5] : ¬ (((healersOf candidates).length == 1) = true))]

/-- Every branch of `SelectCandidates` either returns `ok = true` or returns
the literal `⟨false, [], false⟩` (out-parameters untouched after the reset). -/
lemma select_reset_or_ok (candidates : List QueuedCandidate) (teamSize : Nat)
    (filterTalents : Bool) (allDpsTimer singleHealerDpsTimer now : Nat) :
    SelectCandidates candidates teamSize filterTalents allDpsTimer
      singleHealerDpsTimer now = ⟨false, [], false⟩ ∨
    (SelectCandidates candidates teamSize filterTalents allDpsTimer
      singleHealerDpsTimer now).ok = true := by
  unfold SelectCandidates
  split_ifs <;> simp

/-- C10: whenever `SelectCandidates` reports failure, the out-parameters keep
their reset-at-entry values: `selected` is empty and `allDpsMatch` is false. -/
theorem select_failure_leaves_outputs_reset
    (candidates : List QueuedCandidate) (teamSize : Nat)
    (filterTalents : Bool) (allDpsTimer singleHealerDpsTimer now : Nat)
    (hfail : (SelectCandidates candidates teamSize filterTalents allDpsTimer
      singleHealerDpsTimer now).ok = false) :
    (SelectCandidates candidates teamSize filterTalents allDpsTimer
      singleHealerDpsTimer now).selected = [] ∧
    (SelectCandidates candidates teamSize filterTalents allDpsTimer
      singleHealerDpsTimer now).allDpsMatch = false := by
  rcases select_reset_or_ok candidates teamSize filterTalents allDpsTimer
    singleHealerDpsTimer now with h | h
  · rw [h]
    exact ⟨rfl, rfl⟩
  · rw [h] at hfail
    cases hfail

/-- Witness for C10 at a concrete failing input (empty pool). -/
theorem select_failure_leaves_outputs_reset_witness :
    (SelectCandidates [] 3 true 60000 60000 100000).selected = [] ∧
    (SelectCandidates [] 3 true 60000 60000 100000).allDpsMatch = false :=
  select_failure_leaves_outputs_reset [] 3 true 60000 60000 100000 (by decide)

/-- C4: a selection that succeeded through the zero-healer fallback
(`filterTalents` on, empty healer bucket, `allDpsMatch` set) contains only
candidates whose no-healer wait timer has elapsed. -/
theorem select_zero_healer_fallback_gated
    (candidates : List QueuedCandidate) (teamSize : Nat)
    (allDpsTimer singleHealerDpsTimer now : Nat)
    (hnoheal : healersOf candidates = [])
    (hok : (SelectCandidates candidates teamSize true allDpsTimer
      singleHealerDpsTimer now).ok = true)
    (hfb : (SelectCandidates candidates teamSize true allDpsTimer
      singleHealerDpsTimer now).allDpsMatch = true) :
    ∀ c ∈ (SelectCandidates candidates teamSize true allDpsTimer
      singleHealerDpsTimer now).selected,
      timerElapsed c.joinTime allDpsTimer now = true := by
  by_cases h1 : candidates.length < twoTeams teamSize
  · rw [select_eq_of_small _ _ _ _ _ _ h1] at hok
    cases hok
  by_cases h3 : healersNeeded teamSize ≤ (healersOf candidates).length ∧
      dpsNeeded teamSize ≤ (dpsOf candidates).length
  · rw [select_eq_of_std _ _ _ _ _ h1 h3] at hfb
    cases hfb
  rw [select_eq_of_zero_healers _ _ _ _ _ h1 h3 hnoheal] at hok ⊢
  by_cases h5 : twoTeams teamSize ≤ (timedDpsOf candidates allDpsTimer now).length
  · rw [if_pos h5]
    intro c hc
    have hc' := List.mem_of_mem_take hc
    simp only [timedDpsOf, List.mem_filter] at hc'
    exact hc'.2
  · rw [if_neg h5] at hok
    cases hok

/-- Witness for C4: four timed DPS at `teamSize = 2` go through the fallback,
and the first selected candidate passes the timer check. -/
theorem select_zero_healer_fallback_gated_witness :
    timerElapsed (⟨1, .DPS, 1500, 0, 0⟩ : QueuedCandidate).joinTime
      60000 70000 = true :=
  select_zero_healer_fallback_gated
    [⟨1, .DPS, 1500, 0, 0⟩, ⟨2, .DPS, 1500, 0, 0⟩,
     ⟨3, .DPS, 1500, 0, 0⟩, ⟨4, .DPS, 1500, 0, 0⟩]
    2 60000 60000 70000 (by decide) (by decide) (by decide)
    ⟨1, .DPS, 1500, 0, 0⟩ (by decide)

/-- C2 (for the role-quota regime `teamSize > 1` the single-healer rule is
about, with `teamSize*2` in `uint32_t` range): with exactly one healer queued
the selection never contains a healer; it succeeds — with the oldest
`teamSize*2` of the timer-qualified DPS and the fallback flag set — exactly
when at least `teamSize*2` DPS have waited `singleHealerDpsTimer`, and fails
with everything reset otherwise. -/
theorem select_single_healer_fallback
    (candidates : List QueuedCandidate) (teamSize : Nat)
    (allDpsTimer singleHealerDpsTimer now : Nat)
    (hts : 1 < teamSize) (hovf : teamSize * 2 < U32)
    (hone : (healersOf candidates).length = 1) :
    (∀ c ∈ (SelectCandidates candidates teamSize true allDpsTimer
        singleHealerDpsTimer now).selected, isHealer c = false) ∧
    (teamSize * 2 ≤ (timedDpsOf candidates singleHealerDpsTimer now).length →
      SelectCandidates candidates teamSize true allDpsTimer
          singleHealerDpsTimer now
        = ⟨true, (timedDpsOf candidates singleHealerDpsTimer now).take
            (teamSize * 2), true⟩) ∧
    ((timedDpsOf candidates singleHealerDpsTimer now).length < teamSize * 2 →
      SelectCandidates candidates teamSize true allDpsTimer
          singleHealerDpsTimer now = ⟨false, [], false⟩) := by
  have hts2 : twoTeams teamSize = teamSize * 2 := Nat.mod_eq_of_lt hovf
  have h3 : ¬ (healersNeeded teamSize ≤ (healersOf candidates).length ∧
      dpsNeeded teamSize ≤ (dpsOf candidates).length) := by
    intro h
    have ha := h.1
    rw [healersNeeded, if_pos hts, hone] at ha
    omega
  by_cases h1 : candidates.length < twoTeams teamSize
  · have hchain : (timedDpsOf candidates singleHealerDpsTimer now).length ≤
        candidates.length :=
      le_trans (List.length_filter_le _ _) (List.length_filter_le _ _)
    rw [hts2] at h1
    rw [select_eq_of_small _ _ _ _ _ _ (by rw [hts2]; exact h1)]
    exact ⟨by simp, fun hle => absurd hle (by omega), fun _ => rfl⟩
  · rw [select_eq_of_one_healer _ _ _ _ _ h1 h3 hone, hts2]
    by_cases h5 : teamSize * 2 ≤
        (timedDpsOf candidates singleHealerDpsTimer now).length
    · rw [if_pos h5]
      refine ⟨?_, fun _ => rfl, fun hlt => absurd h5 (by omega)⟩
      intro c hc
      have hc1 := List.mem_of_mem_take hc
      simp only [timedDpsOf, dpsOf, List.mem_filter, Bool.not_eq_true'] at hc1
      exact hc1.1.2
    · rw [if_neg h5]
      exact ⟨by simp, fun hle => absurd hle h5, fun _ => rfl⟩

/-- Witness for C2: one healer plus four long-waiting DPS at `teamSize = 2`
trigger the single-healer fallback; the first DPS is no healer and the
selection takes the oldest four timer-qualified DPS. -/
theorem select_single_healer_fallback_witness :
    isHealer (⟨2, .DPS, 1500, 0, 0⟩ : QueuedCandidate) = false ∧
    SelectCandidates
      [⟨1, .HEALER, 1500, 0, 0⟩, ⟨2, .DPS, 1500, 0, 0⟩,
       ⟨3, .DPS, 1500, 0, 0⟩, ⟨4, .DPS, 1500, 0, 0⟩, ⟨5, .DPS, 1500, 0, 0⟩]
      2 true 60000 60000 70000
      = ⟨true, (timedDpsOf
          [⟨1, .HEALER, 1500, 0, 0⟩, ⟨2, .DPS, 1500, 0, 0⟩,
           ⟨3, .DPS, 1500, 0, 0⟩, ⟨4, .DPS, 1500, 0, 0⟩,
           ⟨5, .DPS, 1500, 0, 0⟩] 60000 70000).take (2 * 2), true⟩ := by
  have h := select_single_healer_fallback
    [⟨1, .HEALER, 1500, 0, 0⟩, ⟨2, .DPS, 1500, 0, 0⟩,
     ⟨3, .DPS, 1500, 0, 0⟩, ⟨4, .DPS, 1500, 0, 0⟩, ⟨5, .DPS, 1500, 0, 0⟩]
    2 60000 60000 70000 (by decide) (by decide) (by decide)
  exact ⟨h.1 ⟨2, .DPS, 1500, 0, 0⟩ (by decide), h.2.1 (by decide)⟩

/-- In the two-role model every candidate is DPS-or-healer, so the level-5/6
role scope `(aIsMelee || aIsHealer) && (bIsMelee || bIsHealer)` is the same
test as level 1. -/
lemma pairConflict_level56_eq_level1 (level classMask : Nat)
    (a b : QueuedCandidate) (h : level = 5 ∨ level = 6) :
    pairConflict level classMask a b = pairConflict 1 classMask a b := by
  rcases h with h | h <;> subst h <;>
    · unfold pairConflict
      split_ifs <;> try rfl
      cases ha : a.role <;> cases hb : b.role <;> simp

lemma anyPairConflict_level56_eq_level1 (level classMask : Nat)
    (cs : List QueuedCandidate) (h : level = 5 ∨ level = 6) :
    anyPairConflict level classMask cs = anyPairConflict 1 classMask cs := by
  induction cs with
  | nil => rfl
  | cons a rest ih =>
    have hp : pairConflict level classMask a = pairConflict 1 classMask a :=
      funext fun b => pairConflict_level56_eq_level1 level classMask a b h
    simp only [anyPairConflict, ih, hp]

/-- C3 counterexample: at stacking level 5, two same-class DPS candidates do
conflict (no healer involved), and a pool whose only same-class pairs are
DPS–DPS is rejected outright — the claim says both should be allowed. -/
theorem classStacking_level5_dps_pair_counterexample :
    HasClassStackingConflict [0, 1]
      [⟨1, .DPS, 1500, 0, 1⟩, ⟨2, .DPS, 1500, 0, 1⟩] 5 0 = true ∧
    (FindBestTeamSplit
      [⟨1, .HEALER, 1500, 0, 5⟩, ⟨2, .HEALER, 1500, 0, 7⟩,
       ⟨3, .DPS, 1500, 0, 1⟩, ⟨4, .DPS, 1500, 0, 1⟩,
       ⟨5, .DPS, 1500, 0, 1⟩, ⟨6, .DPS, 1500, 0, 1⟩]
      3 true false 5 0).valid = false :=
  ⟨by decide, by decide⟩

/-- C3 amended: at stacking levels 5 and 6 the role scope is vacuous in the
two-role model — any same-team pair sharing a class tag selected by the mask
conflicts, regardless of roles, so levels 5 and 6 coincide with level 1. -/
theorem classStacking_level56_any_pair (indices : List Nat)
    (pool : List QueuedCandidate) (level classMask : Nat)
    (h : level = 5 ∨ level = 6) :
    (∀ a b : QueuedCandidate, a.classId = b.classId →
      (classMask = 0 ∨ classMask &&& ClassIdToMaskBit a.classId ≠ 0) →
      pairConflict level classMask a b = true) ∧
    HasClassStackingConflict indices pool level classMask
      = HasClassStackingConflict indices pool 1 classMask := by
  constructor
  · intro a b hcls hmask
    rw [pairConflict_level56_eq_level1 level classMask a b h]
    unfold pairConflict
    rw [if_neg (by simp [hcls]), if_neg (by
      rintro ⟨hm0, hmbit⟩
      rcases hmask with hm | hm
      · exact hm0 hm
      · exact hm hmbit)]
  · unfold HasClassStackingConflict
    exact anyPairConflict_level56_eq_level1 level classMask _ h

/-- Witness for the amended C3 at level 5 on a concrete two-DPS pool: the
same-class DPS pair conflicts, and level 5 coincides with level 1. -/
theorem classStacking_level56_any_pair_witness :
    pairConflict 5 0 ⟨1, .DPS, 1500, 0, 1⟩ ⟨2, .DPS, 1500, 0, 1⟩ = true ∧
    HasClassStackingConflict [0, 1]
      [⟨1, .DPS, 1500, 0, 1⟩, ⟨2, .DPS, 1500, 0, 1⟩] 5 0
      = HasClassStackingConflict [0, 1]
        [⟨1, .DPS, 1500, 0, 1⟩, ⟨2, .DPS, 1500, 0, 1⟩] 1 0 := by
  have h := classStacking_level56_any_pair [0, 1]
    [⟨1, .DPS, 1500, 0, 1⟩, ⟨2, .DPS, 1500, 0, 1⟩] 5 0 (Or.inl rfl)
  exact ⟨h.1 ⟨1, .DPS, 1500, 0, 1⟩ ⟨2, .DPS, 1500, 0, 1⟩ rfl (Or.inl rfl),
    h.2⟩

/-- A strictly increasing list of naturals drawn from `[a, n)` has at most
`n - a` elements. -/
lemma length_le_of_sorted_bounded (l : List Nat) :
    ∀ a n : Nat, l.Pairwise (· < ·) → (∀ x ∈ l, a ≤ x ∧ x < n) →
      l.length ≤ n - a := by
  induction l with
  | nil => intro a n _ _; simp
  | cons x xs ih =>
    intro a n hp hb
    have hx := hb x (List.mem_cons_self _ _)
    have hxs : ∀ y ∈ xs, x + 1 ≤ y ∧ y < n := fun y hy =>
      ⟨(List.pairwise_cons.mp hp).1 y hy, (hb y (List.mem_cons_of_mem _ hy)).2⟩
    have htail := ih (x + 1) n (List.pairwise_cons.mp hp).2 hxs
    simp only [List.length_cons]
    omega

/-- The combinations `Enumerate` visits from a given `start` are exactly the
strictly increasing `k`-element index lists drawn from `[start, n)`. -/
lemma mem_combosFrom (k : Nat) :
    ∀ (start : Nat) (l : List Nat) (n : Nat),
      l ∈ combosFrom n start k ↔
        l.length = k ∧ l.Pairwise (· < ·) ∧ ∀ x ∈ l, start ≤ x ∧ x < n := by
  induction k with
  | zero =>
    intro start l n
    simp only [combosFrom, List.mem_singleton]
    constructor
    · rintro rfl; simp
    · rintro ⟨hl, _, _⟩
      exact List.length_eq_zero.mp hl
  | succ k ih =>
    intro start l n
    simp only [combosFrom, List.mem_flatMap, List.mem_map]
    constructor
    · rintro ⟨i, hi, t, ht, rfl⟩
      rw [List.mem_range'_1] at hi
      obtain ⟨htlen, htp, htb⟩ := (ih (i + 1) t n).mp ht
      refine ⟨by simp [htlen], ?_, ?_⟩
      · exact List.pairwise_cons.mpr
          ⟨fun y hy => (htb y hy).1, htp⟩
      · intro x hx
        rcases List.mem_cons.mp hx with rfl | hx
        · omega
        · have := htb x hx
          omega
    · rintro ⟨hlen, hp, hb⟩
      match l with
      | [] => simp at hlen
      | x :: t =>
        refine ⟨x, ?_, t, ?_, rfl⟩
        · rw [List.mem_range'_1]
          have hxb := hb x (List.mem_cons_self _ _)
          have htb : ∀ y ∈ t, x + 1 ≤ y ∧ y < n := fun y hy =>
            ⟨(List.pairwise_cons.mp hp).1 y hy,
             (hb y (List.mem_cons_of_mem _ hy)).2⟩
          have hlt := length_le_of_sorted_bounded t (x + 1) n
            (List.pairwise_cons.mp hp).2 htb
          have htlen : t.length = k := by simpa using hlen
          omega
        · exact (ih (x + 1) t n).mpr
            ⟨by simpa using hlen, (List.pairwise_cons.mp hp).2,
             fun y hy => ⟨(List.pairwise_cons.mp hp).1 y hy,
               (hb y (List.mem_cons_of_mem _ hy)).2⟩⟩

/-- The complement scan over a strictly increasing index stream removes
exactly the entries of the (strictly increasing) team-1 list. -/
lemma scanComp_eq_filter (is : List Nat) :
    ∀ t1 : List Nat, is.Pairwise (· < ·) → t1.Pairwise (· < ·) →
      (∀ c ∈ t1, c ∈ is) →
      scanComp is t1 = is.filter (fun i => decide (i ∉ t1)) := by
  induction is with
  | nil => intro t1 _ _ _; rfl
  | cons i is' ih =>
    intro t1 his ht1 hsub
    have his' := (List.pairwise_cons.mp his).2
    have hilt : ∀ x ∈ is', i < x := (List.pairwise_cons.mp his).1
    match t1 with
    | [] =>
      have htail := ih [] his' List.Pairwise.nil (by simp)
      simp [scanComp, htail]
    | c :: cs =>
      have hclt : ∀ x ∈ cs, c < x := (List.pairwise_cons.mp ht1).1
      by_cases hci : c = i
      · subst hci
        rw [show scanComp (c :: is') (c :: cs) = scanComp is' cs from by
          simp [scanComp]]
        have hcs_sub : ∀ e ∈ cs, e ∈ is' := by
          intro e he
          have := hsub e (List.mem_cons_of_mem _ he)
          rcases List.mem_cons.mp this with rfl | h
          · exact absurd (hclt e he) (lt_irrefl e)
          · exact h
        have htail := ih cs his' (List.pairwise_cons.mp ht1).2 hcs_sub
        have hcongr : is'.filter (fun x => decide (x ∉ cs))
            = is'.filter (fun x => decide (x ∉ c :: cs)) := by
          apply List.filter_congr
          intro x hx
          have hne : x ≠ c := (Nat.ne_of_lt (hilt x hx)).symm
          simp [hne]
        rw [List.filter_cons, if_neg (by simp)]
        rw [htail, hcongr]
      · rw [show scanComp (i :: is') (c :: cs)
            = i :: scanComp is' (c :: cs) from by simp [scanComp, hci]]
        have hc_mem : c ∈ is' := by
          rcases List.mem_cons.mp (hsub c (List.mem_cons_self _ _)) with h | h
          · exact absurd h hci
          · exact h
        have hic : i < c := hilt c hc_mem
        have hsub' : ∀ e ∈ c :: cs, e ∈ is' := by
          intro e he
          rcases List.mem_cons.mp he with rfl | he'
          · exact hc_mem
          · rcases List.mem_cons.mp (hsub e (List.mem_cons_of_mem _ he')) with rfl | h
            · exact absurd (hclt e he') (by omega)
            · exact h
        have htail := ih (c :: cs) his' ht1 hsub'
        have hi_notin : i ∉ c :: cs := by
          intro hmem
          rcases List.mem_cons.mp hmem with rfl | h
          · omega
          · exact absurd (hclt i h) (by omega)
        rw [List.filter_cons, if_pos (by simpa using hi_notin), htail]

/-- Filtering away a nodup sub-collection removes exactly its length. -/
lemma length_filter_not_mem (is : List Nat) :
    ∀ t1 : List Nat, is.Nodup → t1.Nodup → (∀ c ∈ t1, c ∈ is) →
      (is.filter (fun i => decide (i ∉ t1))).length = is.length - t1.length := by
  induction is with
  | nil =>
    intro t1 _ _ hsub
    have : t1 = [] := by
      cases t1 with
      | nil => rfl
      | cons c cs => exact absurd (hsub c (List.mem_cons_self _ _)) (by simp)
    subst this
    rfl
  | cons i is' ih =>
    intro t1 hnd hnt hsub
    have hi_not : i ∉ is' := (List.nodup_cons.mp hnd).1
    have hnd' : is'.Nodup := (List.nodup_cons.mp hnd).2
    by_cases hi : i ∈ t1
    · have herase_sub : ∀ e ∈ t1.erase i, e ∈ is' := by
        intro e he
        have hne := (hnt.mem_erase_iff.mp he).1
        have hmem := (hnt.mem_erase_iff.mp he).2
        rcases List.mem_cons.mp (hsub e hmem) with rfl | h
        · exact absurd rfl hne
        · exact h
      have hcongr : is'.filter (fun x => decide (x ∉ t1))
          = is'.filter (fun x => decide (x ∉ t1.erase i)) := by
        apply List.filter_congr
        intro x hx
        have hne : x ≠ i := fun h => hi_not (h ▸ hx)
        simp only [decide_eq_decide]
        rw [hnt.mem_erase_iff]
        tauto
      have htail := ih (t1.erase i) hnd' (hnt.erase i) herase_sub
      have hlen_er : (t1.erase i).length = t1.length - 1 :=
        List.length_erase_of_mem hi
      have hle : (t1.erase i).length ≤ is'.length :=
        (List.subperm_of_subset (hnt.erase i) herase_sub).length_le
      have hpos : 1 ≤ t1.length := List.length_pos.mpr
        (fun h => by simp [h] at hi)
      rw [List.filter_cons, if_neg (by simp [hi])]
      rw [hcongr, htail, hlen_er]
      simp only [List.length_cons]
      omega
    · have hsub' : ∀ c ∈ t1, c ∈ is' := by
        intro c hc
        rcases List.mem_cons.mp (hsub c hc) with rfl | h
        · exact absurd hc hi
        · exact h
      have htail := ih t1 hnd' hnt hsub'
      have hle : t1.length ≤ is'.length :=
        (List.subperm_of_subset hnt hsub').length_le
      rw [List.filter_cons, if_pos (by simp [hi]), List.length_cons, htail]
      simp only [List.length_cons]
      omega

/-- `scanComp` over `range n` with a strictly increasing in-range team-1 list
is the filtered complement. -/
lemma scanComp_range (n : Nat) (t1 : List Nat) (hp : t1.Pairwise (· < ·))
    (hb : ∀ x ∈ t1, x < n) :
    scanComp (List.range n) t1
      = (List.range n).filter (fun i => decide (i ∉ t1)) :=
  scanComp_eq_filter (List.range n) t1 (List.pairwise_lt_range n) hp
    (fun c hc => List.mem_range.mpr (hb c hc))

lemma mem_scanComp_range (n : Nat) (t1 : List Nat) (hp : t1.Pairwise (· < ·))
    (hb : ∀ x ∈ t1, x < n) (x : Nat) :
    x ∈ scanComp (List.range n) t1 ↔ x < n ∧ x ∉ t1 := by
  rw [scanComp_range n t1 hp hb]
  simp [List.mem_filter, List.mem_range]

lemma length_scanComp_range (n : Nat) (t1 : List Nat)
    (hp : t1.Pairwise (· < ·)) (hb : ∀ x ∈ t1, x < n) :
    (scanComp (List.range n) t1).length = n - t1.length := by
  rw [scanComp_range n t1 hp hb]
  have := length_filter_not_mem (List.range n) t1 (List.nodup_range n)
    (hp.imp Nat.ne_of_lt) (fun c hc => List.mem_range.mpr (hb c hc))
  simpa using this

/-- Invariant of the `Enumerate` accumulator: after folding `enumStep` over
any further combinations, the best combination seen is a processed, filter
passing one whose recorded difference is its own difference and a lower
bound on the difference of every processed filter-passing combination. -/
lemma enum_fold_good (pool : List QueuedCandidate) (n : Nat)
    (ft adm : Bool) (level mask : Nat) (l : List (List Nat)) :
    ∀ (ps : List (List Nat)) (st : EnumState),
      (st.haveBest = false →
        ∀ c ∈ ps, comboAllowed pool n ft adm level mask c = false) →
      (st.haveBest = true →
        comboAllowed pool n ft adm level mask st.bestTeam1 = true ∧
        st.bestDiff = comboDiff pool n st.bestTeam1 ∧
        st.bestTeam1 ∈ ps ∧
        ∀ c ∈ ps, comboAllowed pool n ft adm level mask c = true →
          st.bestDiff ≤ comboDiff pool n c) →
      ((l.foldl (enumStep pool n ft adm level mask) st).haveBest = false →
        ∀ c ∈ ps ++ l, comboAllowed pool n ft adm level mask c = false) ∧
      ((l.foldl (enumStep pool n ft adm level mask) st).haveBest = true →
        comboAllowed pool n ft adm level mask
          (l.foldl (enumStep pool n ft adm level mask) st).bestTeam1 = true ∧
        (l.foldl (enumStep pool n ft adm level mask) st).bestDiff
          = comboDiff pool n
              (l.foldl (enumStep pool n ft adm level mask) st).bestTeam1 ∧
        (l.foldl (enumStep pool n ft adm level mask) st).bestTeam1 ∈ ps ++ l ∧
        ∀ c ∈ ps ++ l, comboAllowed pool n ft adm level mask c = true →
          (l.foldl (enumStep pool n ft adm level mask) st).bestDiff
            ≤ comboDiff pool n c) := by
  induction l with
  | nil =>
    intro ps st h0 h1
    simp only [List.foldl_nil, List.append_nil]
    exact ⟨h0, h1⟩
  | cons c l' ih =>
    intro ps st h0 h1
    rw [List.foldl_cons,
      show ps ++ c :: l' = (ps ++ [c]) ++ l' from by simp]
    apply ih (ps ++ [c]) (enumStep pool n ft adm level mask st c)
    · -- the stepped state still satisfies the "no best yet" part
      intro hf x hx
      by_cases hallow : comboAllowed pool n ft adm level mask c = true
      · exfalso
        -- an allowed combination always leaves haveBest = true
        have : (enumStep pool n ft adm level mask st c).haveBest = true := by
          unfold enumStep
          rw [if_pos hallow]
          by_cases hcond : (!st.haveBest
              || decide (comboDiff pool n c < st.bestDiff)) = true
          · rw [if_pos hcond]
          · rw [if_neg hcond]
            cases hsb : st.haveBest
            · exact absurd (by simp [hsb]) hcond
            · rfl
        rw [this] at hf
        cases hf
      · have hstep : enumStep pool n ft adm level mask st c = st := by
          unfold enumStep
          rw [if_neg (by simpa using hallow)]
        rw [hstep] at hf
        rcases List.mem_append.mp hx with hx | hx
        · exact h0 hf x hx
        · rw [List.mem_singleton.mp hx]
          simpa using hallow
    · -- the stepped state still satisfies the "best so far" part
      intro ht
      by_cases hallow : comboAllowed pool n ft adm level mask c = true
      · by_cases hhb : st.haveBest = true
        · by_cases hlt : comboDiff pool n c < st.bestDiff
          · have hstep : enumStep pool n ft adm level mask st c
                = ⟨true, comboDiff pool n c, c⟩ := by
              unfold enumStep
              rw [if_pos hallow, if_pos (by simp [hlt])]
            rw [hstep]
            obtain ⟨hba, hbd, hbm, hbmin⟩ := h1 hhb
            refine ⟨hallow, rfl, by simp, ?_⟩
            intro x hx hxa
            rcases List.mem_append.mp hx with hx | hx
            · exact le_trans (le_of_lt hlt) (hbmin x hx hxa)
            · rw [List.mem_singleton.mp hx]
          · have hstep : enumStep pool n ft adm level mask st c = st := by
              unfold enumStep
              rw [if_pos hallow, if_neg (by simp [hhb, hlt])]
            rw [hstep] at ht ⊢
            obtain ⟨hba, hbd, hbm, hbmin⟩ := h1 ht
            refine ⟨hba, hbd, List.mem_append_left _ hbm, ?_⟩
            intro x hx hxa
            rcases List.mem_append.mp hx with hx | hx
            · exact hbmin x hx hxa
            · rw [List.mem_singleton.mp hx]
              exact le_of_not_lt hlt
        · have hhb' : st.haveBest = false := by
            cases h : st.haveBest
            · rfl
            · exact absurd h hhb
          have hstep : enumStep pool n ft adm level mask st c
              = ⟨true, comboDiff pool n c, c⟩ := by
            unfold enumStep
            rw [if_pos hallow, if_pos (by simp [hhb'])]
          rw [hstep]
          refine ⟨hallow, rfl, by simp, ?_⟩
          intro x hx hxa
          rcases List.mem_append.mp hx with hx | hx
          · exact absurd (h0 hhb' x hx) (by simp [hxa])
          · rw [List.mem_singleton.mp hx]
      · have hstep : enumStep pool n ft adm level mask st c = st := by
          unfold enumStep
          rw [if_neg (by simpa using hallow)]
        rw [hstep] at ht ⊢
        obtain ⟨hba, hbd, hbm, hbmin⟩ := h1 ht
        refine ⟨hba, hbd, List.mem_append_left _ hbm, ?_⟩
        intro x hx hxa
        rcases List.mem_append.mp hx with hx | hx
        · exact hbmin x hx hxa
        · rw [List.mem_singleton.mp hx] at hxa
          exact absurd hxa (by simp [hallow])

/-- Specification of a completed `Enumerate` run that found a best split. -/
lemma enum_spec (pool : List QueuedCandidate) (teamSize n : Nat)
    (ft adm : Bool) (level mask : Nat)
    (h : (Enumerate pool teamSize n ft adm level mask).haveBest = true) :
    comboAllowed pool n ft adm level mask
      (Enumerate pool teamSize n ft adm level mask).bestTeam1 = true ∧
    (Enumerate pool teamSize n ft adm level mask).bestDiff
      = comboDiff pool n
          (Enumerate pool teamSize n ft adm level mask).bestTeam1 ∧
    (Enumerate pool teamSize n ft adm level mask).bestTeam1
      ∈ combosFrom n 0 teamSize ∧
    ∀ c ∈ combosFrom n 0 teamSize,
      comboAllowed pool n ft adm level mask c = true →
      (Enumerate pool teamSize n ft adm level mask).bestDiff
        ≤ comboDiff pool n c := by
  have := (enum_fold_good pool n ft adm level mask (combosFrom n 0 teamSize)
    [] ⟨false, 0, []⟩ (by intro _ c hc; cases hc) (by intro h'; cases h')).2
  rw [List.nil_append] at this
  exact this h

/-- A valid `FindBestTeamSplit` result is the literal built from the
`Enumerate` accumulator. -/
lemma findBest_valid_eq (selected : List QueuedCandidate) (teamSize : Nat)
    (ft adm : Bool) (level mask : Nat)
    (h : (FindBestTeamSplit selected teamSize ft adm level mask).valid = true) :
    (Enumerate selected teamSize selected.length ft adm level mask).haveBest
      = true ∧
    FindBestTeamSplit selected teamSize ft adm level mask
      = ⟨true,
         (Enumerate selected teamSize selected.length ft adm level mask).bestTeam1,
         scanComp (List.range selected.length)
           (Enumerate selected teamSize selected.length ft adm level mask).bestTeam1,
         (Enumerate selected teamSize selected.length ft adm level mask).bestDiff⟩ := by
  by_cases h1 : selected.length < twoTeams teamSize
  · unfold FindBestTeamSplit at h
    rw [if_pos h1] at h
    cases h
  · cases hb : (Enumerate selected teamSize selected.length ft adm
        level mask).haveBest
    · unfold FindBestTeamSplit at h
      rw [if_neg h1, if_pos (by simp [hb])] at h
      cases h
    · refine ⟨rfl, ?_⟩
      unfold FindBestTeamSplit
      rw [if_neg h1, if_neg (by simp [hb])]

/-- The winning team-1 index list of a valid split is a strictly increasing
`teamSize`-element list of in-range indices. -/
lemma findBest_team1_shape (selected : List QueuedCandidate) (teamSize : Nat)
    (ft adm : Bool) (level mask : Nat)
    (h : (FindBestTeamSplit selected teamSize ft adm level mask).valid = true) :
    (Enumerate selected teamSize selected.length ft adm level mask).bestTeam1.length
      = teamSize ∧
    (Enumerate selected teamSize selected.length ft adm level mask).bestTeam1.Pairwise
      (· < ·) ∧
    ∀ x ∈ (Enumerate selected teamSize selected.length ft adm level mask).bestTeam1,
      x < selected.length := by
  obtain ⟨hb, _⟩ := findBest_valid_eq selected teamSize ft adm level mask h
  obtain ⟨-, -, hmem, -⟩ := enum_spec selected teamSize selected.length
    ft adm level mask hb
  obtain ⟨hlen, hp, hbnd⟩ :=
    (mem_combosFrom teamSize 0 _ selected.length).mp hmem
  exact ⟨hlen, hp, fun x hx => (hbnd x hx).2⟩

/-- C6: a valid split's two index lists are disjoint and together cover
exactly the index range `[0, n)` of the selected list. -/
theorem findBest_complement_partition (selected : List QueuedCandidate)
    (teamSize : Nat) (ft adm : Bool) (level mask : Nat)
    (h : (FindBestTeamSplit selected teamSize ft adm level mask).valid = true) :
    (∀ i, ¬ (i ∈ (FindBestTeamSplit selected teamSize ft adm level mask).team1Indices ∧
      i ∈ (FindBestTeamSplit selected teamSize ft adm level mask).team2Indices)) ∧
    (∀ i, (i ∈ (FindBestTeamSplit selected teamSize ft adm level mask).team1Indices ∨
      i ∈ (FindBestTeamSplit selected teamSize ft adm level mask).team2Indices) ↔
      i < selected.length) := by
  obtain ⟨hb, heq⟩ := findBest_valid_eq selected teamSize ft adm level mask h
  obtain ⟨hlen, hp, hbnd⟩ := findBest_team1_shape selected teamSize ft adm
    level mask h
  rw [heq]
  simp only []
  constructor
  · intro i ⟨hi1, hi2⟩
    rw [mem_scanComp_range selected.length _ hp hbnd i] at hi2
    exact hi2.2 hi1
  · intro i
    rw [mem_scanComp_range selected.length _ hp hbnd i]
    constructor
    · rintro (hi | hi)
      · exact hbnd i hi
      · exact hi.1
    · intro hi
      by_cases hmem : i ∈ (Enumerate selected teamSize selected.length
          ft adm level mask).bestTeam1
      · exact Or.inl hmem
      · exact Or.inr ⟨hi, hmem⟩

/-- Witness for C6 on a two-candidate pool at `teamSize = 1`, checked at
indices 0 and 1. -/
theorem findBest_complement_partition_witness :
    (¬ (0 ∈ (FindBestTeamSplit [⟨1, .DPS, 1500, 0, 0⟩, ⟨2, .DPS, 1600, 0, 0⟩]
        1 false false 0 0).team1Indices ∧
      0 ∈ (FindBestTeamSplit [⟨1, .DPS, 1500, 0, 0⟩, ⟨2, .DPS, 1600, 0, 0⟩]
        1 false false 0 0).team2Indices)) ∧
    ((1 ∈ (FindBestTeamSplit [⟨1, .DPS, 1500, 0, 0⟩, ⟨2, .DPS, 1600, 0, 0⟩]
        1 false false 0 0).team1Indices ∨
      1 ∈ (FindBestTeamSplit [⟨1, .DPS, 1500, 0, 0⟩, ⟨2, .DPS, 1600, 0, 0⟩]
        1 false false 0 0).team2Indices) ↔ 1 < 2) := by
  have h := findBest_complement_partition
    [⟨1, .DPS, 1500, 0, 0⟩, ⟨2, .DPS, 1600, 0, 0⟩] 1 false false 0 0
    (by decide)
  exact ⟨h.1 0, h.2 1⟩

/-- C5 counterexample: with `teamSize = 1` and three selected candidates
(`len ≥ 2×teamSize` as the claim's precondition allows), the split is valid
but team 2 has two indices, not `teamSize`, and the union is `[0, 3)`, not
`[0, 2×teamSize)`. -/
theorem findBest_sizes_counterexample :
    (FindBestTeamSplit
      [⟨1, .DPS, 1500, 0, 0⟩, ⟨2, .DPS, 1600, 0, 0⟩, ⟨3, .DPS, 1700, 0, 0⟩]
      1 false false 0 0).valid = true ∧
    (FindBestTeamSplit
      [⟨1, .DPS, 1500, 0, 0⟩, ⟨2, .DPS, 1600, 0, 0⟩, ⟨3, .DPS, 1700, 0, 0⟩]
      1 false false 0 0).team2Indices.length ≠ 1 :=
  ⟨by decide, by decide⟩

/-- C5 amended: under the exact-size precondition `len(selected) =
2×teamSize` (the normal use the spec notes), a valid split's index lists
each have size `teamSize` and partition `[0, 2×teamSize)`. -/
theorem findBest_sizes_exact (selected : List QueuedCandidate)
    (teamSize : Nat) (ft adm : Bool) (level mask : Nat)
    (hlen : selected.length = teamSize * 2)
    (h : (FindBestTeamSplit selected teamSize ft adm level mask).valid = true) :
    (FindBestTeamSplit selected teamSize ft adm level mask).team1Indices.length
      = teamSize ∧
    (FindBestTeamSplit selected teamSize ft adm level mask).team2Indices.length
      = teamSize ∧
    (∀ i, ¬ (i ∈ (FindBestTeamSplit selected teamSize ft adm level mask).team1Indices ∧
      i ∈ (FindBestTeamSplit selected teamSize ft adm level mask).team2Indices)) ∧
    (∀ i, (i ∈ (FindBestTeamSplit selected teamSize ft adm level mask).team1Indices ∨
      i ∈ (FindBestTeamSplit selected teamSize ft adm level mask).team2Indices) ↔
      i < teamSize * 2) := by
  obtain ⟨hb, heq⟩ := findBest_valid_eq selected teamSize ft adm level mask h
  obtain ⟨ht1len, hp, hbnd⟩ := findBest_team1_shape selected teamSize ft adm
    level mask h
  obtain ⟨hdisj, hunion⟩ := findBest_complement_partition selected teamSize
    ft adm level mask h
  refine ⟨?_, ?_, hdisj, ?_⟩
  · rw [heq]
    exact ht1len
  · rw [heq]
    simp only []
    rw [length_scanComp_range selected.length _ hp hbnd, ht1len, hlen]
    omega
  · intro i
    rw [hunion i, hlen]

/-- Witness for the amended C5 on a two-candidate pool at `teamSize = 1`,
with the partition facts checked at index 0. -/
theorem findBest_sizes_exact_witness :
    (FindBestTeamSplit [⟨1, .DPS, 1500, 0, 0⟩, ⟨2, .DPS, 1600, 0, 0⟩]
      1 false false 0 0).team1Indices.length = 1 ∧
    (FindBestTeamSplit [⟨1, .DPS, 1500, 0, 0⟩, ⟨2, .DPS, 1600, 0, 0⟩]
      1 false false 0 0).team2Indices.length = 1 ∧
    (¬ (0 ∈ (FindBestTeamSplit [⟨1, .DPS, 1500, 0, 0⟩, ⟨2, .DPS, 1600, 0, 0⟩]
        1 false false 0 0).team1Indices ∧
      0 ∈ (FindBestTeamSplit [⟨1, .DPS, 1500, 0, 0⟩, ⟨2, .DPS, 1600, 0, 0⟩]
        1 false false 0 0).team2Indices)) ∧
    ((0 ∈ (FindBestTeamSplit [⟨1, .DPS, 1500, 0, 0⟩, ⟨2, .DPS, 1600, 0, 0⟩]
        1 false false 0 0).team1Indices ∨
      0 ∈ (FindBestTeamSplit [⟨1, .DPS, 1500, 0, 0⟩, ⟨2, .DPS, 1600, 0, 0⟩]
        1 false false 0 0).team2Indices) ↔ 0 < 1 * 2) := by
  have h := findBest_sizes_exact [⟨1, .DPS, 1500, 0, 0⟩, ⟨2, .DPS, 1600, 0, 0⟩]
    1 false false 0 0 (by decide) (by decide)
  exact ⟨h.1, h.2.1, h.2.2.1 0, h.2.2.2 0⟩

/-- C1: the difference of a valid split is a lower bound on the difference
of every partition (given by its strictly increasing team-1 index list and
the complement) that passes the same role-balance and class-stacking
filters. -/
theorem findBest_optimal (selected : List QueuedCandidate) (teamSize : Nat)
    (ft adm : Bool) (level mask : Nat)
    (h : (FindBestTeamSplit selected teamSize ft adm level mask).valid = true)
    (t1 : List Nat) (hp : t1.Pairwise (· < ·)) (hlen : t1.length = teamSize)
    (hbnd : ∀ x ∈ t1, x < selected.length)
    (hallow : comboAllowed selected selected.length ft adm level mask t1
      = true) :
    (FindBestTeamSplit selected teamSize ft adm level mask).mmrDiff
      ≤ comboDiff selected selected.length t1 := by
  obtain ⟨hb, heq⟩ := findBest_valid_eq selected teamSize ft adm level mask h
  obtain ⟨-, -, -, hmin⟩ := enum_spec selected teamSize selected.length
    ft adm level mask hb
  have hmem : t1 ∈ combosFrom selected.length 0 teamSize :=
    (mem_combosFrom teamSize 0 t1 selected.length).mpr
      ⟨hlen, hp, fun x hx => ⟨Nat.zero_le x, hbnd x hx⟩⟩
  rw [heq]
  exact hmin t1 hmem hallow

/-- Witness for C1 at a concrete two-candidate pool and the alternative
partition `[1] / [0]`. -/
theorem findBest_optimal_witness :
    (FindBestTeamSplit [⟨1, .DPS, 1500, 0, 0⟩, ⟨2, .DPS, 1600, 0, 0⟩]
      1 false false 0 0).mmrDiff
      ≤ comboDiff [⟨1, .DPS, 1500, 0, 0⟩, ⟨2, .DPS, 1600, 0, 0⟩] 2 [1] :=
  findBest_optimal [⟨1, .DPS, 1500, 0, 0⟩, ⟨2, .DPS, 1600, 0, 0⟩]
    1 false false 0 0 (by decide) [1] (by decide) (by decide) (by decide)
    (by decide)

end ArenaSolo

namespace Solo3v3

lemma scoreLt_trans {a b c : Nat × Nat} (h1 : scoreLt a b) (h2 : scoreLt b c) :
    scoreLt a c := by
  unfold scoreLt at *
  omega

lemma scoreLt_resolve {a b c : Nat × Nat} (h1 : scoreLt a b)
    (h2 : ¬ scoreLt c b) : scoreLt a c := by
  unfold scoreLt at *
  omega

lemma scoreLt_asymm {a b : Nat × Nat} (h : scoreLt a b) : ¬ scoreLt b a := by
  unfold scoreLt at *
  omega

lemma scoreLt_irrefl (a : Nat × Nat) : ¬ scoreLt a a := by
  unfold scoreLt
  omega

/-- The replace condition of `prodStep` with a best already recorded is the
strict lexicographic comparison on `(primary, secondary)`. -/
lemma prodCond_reflect (hb : Bool) (diff ign bd bi : Nat) (h : hb = true) :
    ((!hb || decide (diff < bd) || (diff == bd && decide (ign < bi))) = true)
      ↔ scoreLt (diff, ign) (bd, bi) := by
  subst h
  simp only [Bool.not_true, Bool.false_or, Bool.or_eq_true, Bool.and_eq_true,
    decide_eq_true_eq, beq_iff_eq, scoreLt]

/-- Invariant of the `EnumerateCombinations` accumulator: the recorded best
is a processed filter-passing combination; everything valid processed before
it scores strictly worse (so ties never displace it), and everything valid
processed after it scores no better. -/
lemma prod_fold_good (pool : List Candidate) (n : Nat) (ft adm avoid : Bool)
    (ign : Nat → Nat → Bool) (l : List (List Nat)) :
    ∀ (ps : List (List Nat)) (st : ProdState),
      (st.haveBest = false → ∀ c ∈ ps, prodAllowed pool n ft adm c = false) →
      (st.haveBest = true →
        prodAllowed pool n ft adm st.bestTeam1 = true ∧
        st.bestDiff = prodDiff pool n st.bestTeam1 ∧
        st.bestIgnores = prodIgn ign avoid n st.bestTeam1 ∧
        ∃ pre post,
          ps.filter (prodAllowed pool n ft adm)
            = pre ++ st.bestTeam1 :: post ∧
          (∀ c ∈ pre, scoreLt (st.bestDiff, st.bestIgnores)
            (prodDiff pool n c, prodIgn ign avoid n c)) ∧
          (∀ c ∈ post, ¬ scoreLt (prodDiff pool n c, prodIgn ign avoid n c)
            (st.bestDiff, st.bestIgnores))) →
      ((l.foldl (prodStep pool n ft adm avoid ign) st).haveBest = false →
        ∀ c ∈ ps ++ l, prodAllowed pool n ft adm c = false) ∧
      ((l.foldl (prodStep pool n ft adm avoid ign) st).haveBest = true →
        prodAllowed pool n ft adm
          (l.foldl (prodStep pool n ft adm avoid ign) st).bestTeam1 = true ∧
        (l.foldl (prodStep pool n ft adm avoid ign) st).bestDiff
          = prodDiff pool n
              (l.foldl (prodStep pool n ft adm avoid ign) st).bestTeam1 ∧
        (l.foldl (prodStep pool n ft adm avoid ign) st).bestIgnores
          = prodIgn ign avoid n
              (l.foldl (prodStep pool n ft adm avoid ign) st).bestTeam1 ∧
        ∃ pre post,
          (ps ++ l).filter (prodAllowed pool n ft adm)
            = pre ++ (l.foldl (prodStep pool n ft adm avoid ign) st).bestTeam1
                :: post ∧
          (∀ c ∈ pre, scoreLt
            ((l.foldl (prodStep pool n ft adm avoid ign) st).bestDiff,
             (l.foldl (prodStep pool n ft adm avoid ign) st).bestIgnores)
            (prodDiff pool n c, prodIgn ign avoid n c)) ∧
          (∀ c ∈ post, ¬ scoreLt
            (prodDiff pool n c, prodIgn ign avoid n c)
            ((l.foldl (prodStep pool n ft adm avoid ign) st).bestDiff,
             (l.foldl (prodStep pool n ft adm avoid ign) st).bestIgnores))) := by
  induction l with
  | nil =>
    intro ps st h0 h1
    simp only [List.foldl_nil, List.append_nil]
    exact ⟨h0, h1⟩
  | cons c l' ih =>
    intro ps st h0 h1
    rw [List.foldl_cons,
      show ps ++ c :: l' = (ps ++ [c]) ++ l' from by simp]
    apply ih (ps ++ [c]) (prodStep pool n ft adm avoid ign st c)
    · -- "no best yet" part survives the step
      intro hf x hx
      by_cases hallow : prodAllowed pool n ft adm c = true
      · exfalso
        have : (prodStep pool n ft adm avoid ign st c).haveBest = true := by
          unfold prodStep
          rw [if_pos hallow]
          by_cases hcond : (!st.haveBest
              || decide (prodDiff pool n c < st.bestDiff)
              || (prodDiff pool n c == st.bestDiff
                  && decide (prodIgn ign avoid n c < st.bestIgnores))) = true
          · rw [if_pos hcond]
          · rw [if_neg hcond]
            cases hsb : st.haveBest
            · exact absurd (by simp [hsb]) hcond
            · rfl
        rw [this] at hf
        cases hf
      · have hstep : prodStep pool n ft adm avoid ign st c = st := by
          unfold prodStep
          rw [if_neg (by simpa using hallow)]
        rw [hstep] at hf
        rcases List.mem_append.mp hx with hx | hx
        · exact h0 hf x hx
        · rw [List.mem_singleton.mp hx]
          simpa using hallow
    · -- "best so far" part survives the step
      intro ht
      by_cases hallow : prodAllowed pool n ft adm c = true
      · have hfilter : (ps ++ [c]).filter (prodAllowed pool n ft adm)
            = ps.filter (prodAllowed pool n ft adm) ++ [c] := by
          rw [List.filter_append]
          simp [hallow]
        by_cases hhb : st.haveBest = true
        · obtain ⟨hba, hbd, hbi, pre, post, hdec, hpre, hpost⟩ := h1 hhb
          by_cases hcond : (!st.haveBest
              || decide (prodDiff pool n c < st.bestDiff)
              || (prodDiff pool n c == st.bestDiff
                  && decide (prodIgn ign avoid n c < st.bestIgnores))) = true
          · have hlt := (prodCond_reflect st.haveBest _ _ _ _ hhb).mp hcond
            have hstep : prodStep pool n ft adm avoid ign st c
                = ⟨true, prodDiff pool n c, prodIgn ign avoid n c, c⟩ := by
              unfold prodStep
              rw [if_pos hallow, if_pos hcond]
            rw [hstep]
            refine ⟨hallow, rfl, rfl, pre ++ st.bestTeam1 :: post, [], ?_, ?_, ?_⟩
            · rw [hfilter, hdec]
            · intro x hx
              rcases List.mem_append.mp hx with hx | hx
              · exact scoreLt_trans hlt (hpre x hx)
              · rcases List.mem_cons.mp hx with rfl | hx
                · rw [← hbd, ← hbi]
                  exact hlt
                · exact scoreLt_resolve hlt (hpost x hx)
            · intro x hx
              cases hx
          · have hnlt := (prodCond_reflect st.haveBest _ _ _ _ hhb).not.mp hcond
            have hstep : prodStep pool n ft adm avoid ign st c = st := by
              unfold prodStep
              rw [if_pos hallow, if_neg hcond]
            rw [hstep] at ht ⊢
            refine ⟨hba, hbd, hbi, pre, post ++ [c], ?_, hpre, ?_⟩
            · rw [hfilter, hdec]
              simp
            · intro x hx
              rcases List.mem_append.mp hx with hx | hx
              · exact hpost x hx
              · rw [List.mem_singleton.mp hx]
                exact hnlt
        · have hhb' : st.haveBest = false := by
            cases hsb : st.haveBest
            · rfl
            · exact absurd hsb hhb
          have hnil : ps.filter (prodAllowed pool n ft adm) = [] :=
            List.filter_eq_nil_iff.mpr
              (fun a ha => by simp [h0 hhb' a ha])
          have hstep : prodStep pool n ft adm avoid ign st c
              = ⟨true, prodDiff pool n c, prodIgn ign avoid n c, c⟩ := by
            unfold prodStep
            rw [if_pos hallow, if_pos (by simp [hhb'])]
          rw [hstep]
          refine ⟨hallow, rfl, rfl, [], [], ?_, ?_, ?_⟩
          · rw [hfilter, hnil]
          · intro x hx
            cases hx
          · intro x hx
            cases hx
      · have hfilter : (ps ++ [c]).filter (prodAllowed pool n ft adm)
            = ps.filter (prodAllowed pool n ft adm) := by
          rw [List.filter_append]
          simp [hallow]
        have hstep : prodStep pool n ft adm avoid ign st c = st := by
          unfold prodStep
          rw [if_neg (by simpa using hallow)]
        rw [hstep] at ht ⊢
        obtain ⟨hba, hbd, hbi, pre, post, hdec, hpre, hpost⟩ := h1 ht
        exact ⟨hba, hbd, hbi, pre, post, by rw [hfilter, hdec], hpre, hpost⟩

/-- C7: the best partition is replaced only by a strictly lexicographically
better `(primary, secondary)` score, and consequently the returned partition
is the first, in the enumeration's increasing-index combination order, among
the valid partitions to attain the optimal score pair. -/
theorem enumerateCombinations_first_best (pool : List Candidate)
    (teamSize n : Nat) (ft adm avoid : Bool) (ign : Nat → Nat → Bool)
    (h : (EnumerateCombinations pool teamSize n ft adm avoid ign).haveBest
      = true) :
    (∀ (st : ProdState) (c : List Nat), st.haveBest = true →
      prodStep pool n ft adm avoid ign st c ≠ st →
      prodAllowed pool n ft adm c = true ∧
      scoreLt (prodDiff pool n c, prodIgn ign avoid n c)
        (st.bestDiff, st.bestIgnores)) ∧
    ∃ pre post,
      (ArenaSolo.combosFrom n 0 teamSize).filter (prodAllowed pool n ft adm)
        = pre ++ (EnumerateCombinations pool teamSize n ft adm avoid
            ign).bestTeam1 :: post ∧
      (∀ c ∈ pre, scoreLt
        ((EnumerateCombinations pool teamSize n ft adm avoid ign).bestDiff,
         (EnumerateCombinations pool teamSize n ft adm avoid ign).bestIgnores)
        (prodDiff pool n c, prodIgn ign avoid n c)) ∧
      (∀ c ∈ (ArenaSolo.combosFrom n 0 teamSize).filter
          (prodAllowed pool n ft adm),
        ¬ scoreLt (prodDiff pool n c, prodIgn ign avoid n c)
          ((EnumerateCombinations pool teamSize n ft adm avoid ign).bestDiff,
           (EnumerateCombinations pool teamSize n ft adm avoid
             ign).bestIgnores)) := by
  constructor
  · intro st c hhb hne
    unfold prodStep at hne
    by_cases hallow : prodAllowed pool n ft adm c = true
    · rw [if_pos hallow] at hne
      by_cases hcond : (!st.haveBest
          || decide (prodDiff pool n c < st.bestDiff)
          || (prodDiff pool n c == st.bestDiff
              && decide (prodIgn ign avoid n c < st.bestIgnores))) = true
      · exact ⟨hallow, (prodCond_reflect st.haveBest _ _ _ _ hhb).mp hcond⟩
      · rw [if_neg hcond] at hne
        exact absurd rfl hne
    · rw [if_neg (by simpa using hallow)] at hne
      exact absurd rfl hne
  · unfold EnumerateCombinations at h ⊢
    have hinv := (prod_fold_good pool n ft adm avoid ign
      (ArenaSolo.combosFrom n 0 teamSize) [] ⟨false, 0, 0, []⟩
      (by intro _ c hc; cases hc) (by intro h'; cases h')).2
    rw [List.nil_append] at hinv
    obtain ⟨-, hbd, hbi, pre, post, hdec, hpre, hpost⟩ := hinv h
    refine ⟨pre, post, hdec, hpre, ?_⟩
    intro c hc
    rw [hdec] at hc
    rcases List.mem_append.mp hc with hc | hc
    · exact scoreLt_asymm (hpre c hc)
    · rcases List.mem_cons.mp hc with rfl | hc
      · rw [hbd, hbi]
        exact scoreLt_irrefl _
      · exact hpost c hc

/-- Witness for C7: a concrete state holding `[0]` at score `(200, 0)` is
replaced by combination `[1]`, so `[1]` must pass the filter and score
strictly lexicographically better. -/
theorem enumerateCombinations_first_best_witness :
    prodAllowed [⟨.MELEE, 1500⟩, ⟨.MELEE, 1600⟩] 2 false false [1] = true ∧
    scoreLt (prodDiff [⟨.MELEE, 1500⟩, ⟨.MELEE, 1600⟩] 2 [1],
        prodIgn (fun _ _ => false) false 2 [1])
      ((⟨true, 200, 0, [0]⟩ : ProdState).bestDiff,
       (⟨true, 200, 0, [0]⟩ : ProdState).bestIgnores) :=
  (enumerateCombinations_first_best [⟨.MELEE, 1500⟩, ⟨.MELEE, 1600⟩]
      1 2 false false false (fun _ _ => false) (by decide)).1
    ⟨true, 200, 0, [0]⟩ [1] rfl (by decide)

end Solo3v3

namespace ArenaSolo

/-- In a duplicate-free list, a `take`-prefix containing a later element
also contains every earlier element. -/
lemma mem_take_of_earlier {α : Type} (p : List α) :
    ∀ (m s : List α) (A B : α) (k : Nat),
      (p ++ A :: (m ++ B :: s)).Nodup →
      B ∈ (p ++ A :: (m ++ B :: s)).take k →
      A ∈ (p ++ A :: (m ++ B :: s)).take k := by
  induction p with
  | nil =>
    intro m s A B k hnd hB
    cases k with
    | zero => cases hB
    | succ k =>
      simp only [List.nil_append, List.take_succ_cons]
      exact List.mem_cons_self _ _
  | cons x p' ih =>
    intro m s A B k hnd hB
    cases k with
    | zero => cases hB
    | succ k =>
      simp only [List.cons_append, List.take_succ_cons] at hB ⊢
      have hx_notin : x ∉ p' ++ A :: (m ++ B :: s) :=
        (List.nodup_cons.mp (by simpa using hnd)).1
      rcases List.mem_cons.mp hB with rfl | hB'
      · exact absurd (by simp) hx_notin
      · exact List.mem_cons_of_mem x
          (ih m s A B k (List.nodup_cons.mp (by simpa using hnd)).2 hB')

/-- Filtering a list around two kept occurrences keeps their relative order
and surroundings. -/
lemma filter_decomp {α : Type} (q : α → Bool) (l₁ l₂ l₃ : List α) (A B : α)
    (hA : q A = true) (hB : q B = true) :
    (l₁ ++ A :: (l₂ ++ B :: l₃)).filter q
      = l₁.filter q ++ A :: (l₂.filter q ++ B :: l₃.filter q) := by
  simp [List.filter_append, List.filter_cons, hA, hB]

/-- The role quotas sum to the team total (no `uint32_t` wrap). -/
lemma healersNeeded_add_dpsNeeded (teamSize : Nat)
    (hovf : teamSize * 2 < U32) :
    healersNeeded teamSize + dpsNeeded teamSize = teamSize * 2 := by
  have hU : U32 = 4294967296 := rfl
  by_cases h : 1 < teamSize
  · simp only [healersNeeded, dpsNeeded, twoTeams, if_pos h,
      Nat.mod_eq_of_lt hovf]
    have h2 : teamSize * 2 + U32 - 2 = U32 + (teamSize * 2 - 2) := by
      rw [hU]
      omega
    rw [h2, Nat.add_mod_left, Nat.mod_eq_of_lt (by rw [hU] at hovf ⊢; omega)]
    omega
  · simp only [healersNeeded, dpsNeeded, twoTeams, if_neg h,
      Nat.mod_eq_of_lt hovf]
    have h2 : teamSize * 2 + U32 - 0 = U32 + teamSize * 2 := by
      rw [hU]
      omega
    rw [h2, Nat.add_mod_left, Nat.mod_eq_of_lt hovf]
    omega

/-- FIFO preference inside the standard path: if the later-queued same-role
candidate made the cut, so did the earlier one. -/
lemma select_std_fifo (l₁ l₂ l₃ : List QueuedCandidate)
    (A B : QueuedCandidate) (teamSize allT oneT now : Nat)
    (hnd : (l₁ ++ A :: (l₂ ++ B :: l₃)).Nodup)
    (hrole : A.role = B.role)
    (hstd : healersNeeded teamSize
        ≤ (healersOf (l₁ ++ A :: (l₂ ++ B :: l₃))).length ∧
      dpsNeeded teamSize ≤ (dpsOf (l₁ ++ A :: (l₂ ++ B :: l₃))).length)
    (hB : B ∈ (SelectCandidates (l₁ ++ A :: (l₂ ++ B :: l₃)) teamSize true
      allT oneT now).selected) :
    A ∈ (SelectCandidates (l₁ ++ A :: (l₂ ++ B :: l₃)) teamSize true
      allT oneT now).selected := by
  by_cases h1 : (l₁ ++ A :: (l₂ ++ B :: l₃)).length < twoTeams teamSize
  · rw [select_eq_of_small _ _ _ _ _ _ h1] at hB
    cases hB
  · rw [select_eq_of_std _ _ _ _ _ h1 hstd] at hB ⊢
    dsimp only at hB ⊢
    cases hr : A.role with
    | HEALER =>
      have hhA : isHealer A = true := by simp [isHealer, hr]
      have hhB : isHealer B = true := by simp [isHealer, ← hrole, hr]
      have hdec : healersOf (l₁ ++ A :: (l₂ ++ B :: l₃))
          = l₁.filter isHealer ++ A :: (l₂.filter isHealer
            ++ B :: l₃.filter isHealer) :=
        filter_decomp isHealer l₁ l₂ l₃ A B hhA hhB
      rcases List.mem_append.mp hB with hB' | hB'
      · apply List.mem_append_left
        rw [hdec] at hB' ⊢
        exact mem_take_of_earlier _ _ _ _ _ _
          (hdec ▸ (hnd.filter isHealer)) hB'
      · exfalso
        have := List.mem_of_mem_take hB'
        have hmem := List.of_mem_filter this
        rw [hhB] at hmem
        cases hmem
    | DPS =>
      have hhA : (!isHealer A) = true := by simp [isHealer, hr]
      have hhB : (!isHealer B) = true := by simp [isHealer, ← hrole, hr]
      have hdec : dpsOf (l₁ ++ A :: (l₂ ++ B :: l₃))
          = l₁.filter (fun c => !isHealer c) ++ A :: (l₂.filter
            (fun c => !isHealer c) ++ B :: l₃.filter (fun c => !isHealer c)) :=
        filter_decomp _ l₁ l₂ l₃ A B hhA hhB
      rcases List.mem_append.mp hB with hB' | hB'
      · exfalso
        have := List.mem_of_mem_take hB'
        have hmem := List.of_mem_filter this
        have : B.role = PlayerRole.HEALER := by
          simpa [isHealer] using hmem
        rw [← hrole, hr] at this
        cases this
      · apply List.mem_append_right
        rw [hdec] at hB' ⊢
        exact mem_take_of_earlier _ _ _ _ _ _
          (hdec ▸ (hnd.filter _)) hB'

/-- FIFO preference inside a timed all-DPS fallback list. -/
lemma select_timed_fifo (l₁ l₂ l₃ : List QueuedCandidate)
    (A B : QueuedCandidate) (t now k : Nat)
    (hnd : (l₁ ++ A :: (l₂ ++ B :: l₃)).Nodup)
    (hrole : A.role = B.role)
    (hA : timerElapsed A.joinTime t now = true)
    (hB : B ∈ (timedDpsOf (l₁ ++ A :: (l₂ ++ B :: l₃)) t now).take k) :
    A ∈ (timedDpsOf (l₁ ++ A :: (l₂ ++ B :: l₃)) t now).take k := by
  have hBmem := List.mem_of_mem_take hB
  have hBfull : B ∈ dpsOf (l₁ ++ A :: (l₂ ++ B :: l₃)) ∧
      timerElapsed B.joinTime t now = true := by
    simpa [timedDpsOf, List.mem_filter] using hBmem
  have hhB : (!isHealer B) = true := by
    have h := hBfull.1
    simp only [dpsOf, List.mem_filter] at h
    exact h.2
  have hhA : (!isHealer A) = true := by
    simpa [isHealer, hrole] using hhB
  have hdps : dpsOf (l₁ ++ A :: (l₂ ++ B :: l₃))
      = l₁.filter (fun c => !isHealer c) ++ A :: (l₂.filter
        (fun c => !isHealer c) ++ B :: l₃.filter (fun c => !isHealer c)) :=
    filter_decomp _ l₁ l₂ l₃ A B hhA hhB
  have htimed : timedDpsOf (l₁ ++ A :: (l₂ ++ B :: l₃)) t now
      = (l₁.filter (fun c => !isHealer c)).filter
          (fun c => timerElapsed c.joinTime t now)
        ++ A :: ((l₂.filter (fun c => !isHealer c)).filter
            (fun c => timerElapsed c.joinTime t now)
          ++ B :: (l₃.filter (fun c => !isHealer c)).filter
            (fun c => timerElapsed c.joinTime t now)) := by
    rw [timedDpsOf, hdps]
    exact filter_decomp _ _ _ _ A B hA hBfull.2
  have hndT : (timedDpsOf (l₁ ++ A :: (l₂ ++ B :: l₃)) t now).Nodup :=
    (hnd.filter _).filter _
  rw [htimed] at hB ⊢
  exact mem_take_of_earlier _ _ _ _ _ _ (htimed ▸ hndT) hB

/-- C8: with role filtering on and a duplicate-free pool in arrival order,
the standard path takes exactly the oldest `healersNeeded` healers and the
oldest `dpsNeeded` DPS; and on every path, a same-role candidate `B` queued
after `A` is selected only if the eligible `A` (timer elapsed on the
fallback paths) is selected too. -/
theorem select_fifo_fairness (l₁ l₂ l₃ : List QueuedCandidate)
    (A B : QueuedCandidate) (teamSize allT oneT now : Nat)
    (hovf : teamSize * 2 < U32)
    (hnd : (l₁ ++ A :: (l₂ ++ B :: l₃)).Nodup)
    (hrole : A.role = B.role) :
    ((healersNeeded teamSize
        ≤ (healersOf (l₁ ++ A :: (l₂ ++ B :: l₃))).length ∧
      dpsNeeded teamSize ≤ (dpsOf (l₁ ++ A :: (l₂ ++ B :: l₃))).length) →
      SelectCandidates (l₁ ++ A :: (l₂ ++ B :: l₃)) teamSize true allT
          oneT now
        = ⟨true, (healersOf (l₁ ++ A :: (l₂ ++ B :: l₃))).take
              (healersNeeded teamSize)
            ++ (dpsOf (l₁ ++ A :: (l₂ ++ B :: l₃))).take
              (dpsNeeded teamSize), false⟩) ∧
    ((healersNeeded teamSize
        ≤ (healersOf (l₁ ++ A :: (l₂ ++ B :: l₃))).length ∧
      dpsNeeded teamSize ≤ (dpsOf (l₁ ++ A :: (l₂ ++ B :: l₃))).length) →
      B ∈ (SelectCandidates (l₁ ++ A :: (l₂ ++ B :: l₃)) teamSize true allT
        oneT now).selected →
      A ∈ (SelectCandidates (l₁ ++ A :: (l₂ ++ B :: l₃)) teamSize true allT
        oneT now).selected) ∧
    (healersOf (l₁ ++ A :: (l₂ ++ B :: l₃)) = [] →
      timerElapsed A.joinTime allT now = true →
      B ∈ (SelectCandidates (l₁ ++ A :: (l₂ ++ B :: l₃)) teamSize true allT
        oneT now).selected →
      A ∈ (SelectCandidates (l₁ ++ A :: (l₂ ++ B :: l₃)) teamSize true allT
        oneT now).selected) ∧
    ((healersOf (l₁ ++ A :: (l₂ ++ B :: l₃))).length = 1 →
      timerElapsed A.joinTime oneT now = true →
      B ∈ (SelectCandidates (l₁ ++ A :: (l₂ ++ B :: l₃)) teamSize true allT
        oneT now).selected →
      A ∈ (SelectCandidates (l₁ ++ A :: (l₂ ++ B :: l₃)) teamSize true allT
        oneT now).selected) := by
  refine ⟨?_, ?_, ?_, ?_⟩
  · -- the standard path takes the oldest of each bucket
    intro hstd
    have hpart : (healersOf (l₁ ++ A :: (l₂ ++ B :: l₃))).length
        + (dpsOf (l₁ ++ A :: (l₂ ++ B :: l₃))).length
        = (l₁ ++ A :: (l₂ ++ B :: l₃)).length := by
      simp only [healersOf, dpsOf]
      exact (List.length_eq_length_filter_add isHealer).symm
    have hsum := healersNeeded_add_dpsNeeded teamSize hovf
    have h1 : ¬ (l₁ ++ A :: (l₂ ++ B :: l₃)).length < twoTeams teamSize := by
      have hts2 : twoTeams teamSize = teamSize * 2 := Nat.mod_eq_of_lt hovf
      rw [hts2]
      omega
    exact select_eq_of_std _ _ _ _ _ h1 hstd
  · intro hstd hB
    exact select_std_fifo l₁ l₂ l₃ A B teamSize allT oneT now hnd hrole
      hstd hB
  · intro hzero hA hB
    by_cases h1 : (l₁ ++ A :: (l₂ ++ B :: l₃)).length < twoTeams teamSize
    · rw [select_eq_of_small _ _ _ _ _ _ h1] at hB
      cases hB
    by_cases hstd : healersNeeded teamSize
        ≤ (healersOf (l₁ ++ A :: (l₂ ++ B :: l₃))).length ∧
      dpsNeeded teamSize ≤ (dpsOf (l₁ ++ A :: (l₂ ++ B :: l₃))).length
    · exact select_std_fifo l₁ l₂ l₃ A B teamSize allT oneT now hnd hrole
        hstd hB
    rw [select_eq_of_zero_healers _ _ _ _ _ h1 hstd hzero] at hB ⊢
    by_cases h5 : twoTeams teamSize
        ≤ (timedDpsOf (l₁ ++ A :: (l₂ ++ B :: l₃)) allT now).length
    · rw [if_pos h5] at hB ⊢
      exact select_timed_fifo l₁ l₂ l₃ A B allT now _ hnd hrole hA hB
    · rw [if_neg h5] at hB
      cases hB
  · intro hone hA hB
    by_cases h1 : (l₁ ++ A :: (l₂ ++ B :: l₃)).length < twoTeams teamSize
    · rw [select_eq_of_small _ _ _ _ _ _ h1] at hB
      cases hB
    by_cases hstd : healersNeeded teamSize
        ≤ (healersOf (l₁ ++ A :: (l₂ ++ B :: l₃))).length ∧
      dpsNeeded teamSize ≤ (dpsOf (l₁ ++ A :: (l₂ ++ B :: l₃))).length
    · exact select_std_fifo l₁ l₂ l₃ A B teamSize allT oneT now hnd hrole
        hstd hB
    rw [select_eq_of_one_healer _ _ _ _ _ h1 hstd hone] at hB ⊢
    by_cases h5 : twoTeams teamSize
        ≤ (timedDpsOf (l₁ ++ A :: (l₂ ++ B :: l₃)) oneT now).length
    · rw [if_pos h5] at hB ⊢
      exact select_timed_fifo l₁ l₂ l₃ A B oneT now _ hnd hrole hA hB
    · rw [if_neg h5] at hB
      cases hB

/-- Witness for C8: two healers ahead of three DPS at `teamSize = 2` — the
standard path takes the two oldest healers plus the two oldest DPS, and the
younger selected healer implies the older healer is selected. -/
theorem select_fifo_fairness_witness :
    SelectCandidates ([] ++ ⟨1, .HEALER, 1500, 0, 0⟩ :: ([]
        ++ ⟨2, .HEALER, 1400, 100, 0⟩ :: [⟨3, .DPS, 1500, 200, 0⟩,
          ⟨4, .DPS, 1500, 300, 0⟩, ⟨5, .DPS, 1500, 400, 0⟩]))
        2 true 60000 60000 100000
      = ⟨true, (healersOf ([] ++ ⟨1, .HEALER, 1500, 0, 0⟩ :: ([]
            ++ ⟨2, .HEALER, 1400, 100, 0⟩ :: [⟨3, .DPS, 1500, 200, 0⟩,
              ⟨4, .DPS, 1500, 300, 0⟩, ⟨5, .DPS, 1500, 400, 0⟩]))).take
            (healersNeeded 2)
          ++ (dpsOf ([] ++ ⟨1, .HEALER, 1500, 0, 0⟩ :: ([]
            ++ ⟨2, .HEALER, 1400, 100, 0⟩ :: [⟨3, .DPS, 1500, 200, 0⟩,
              ⟨4, .DPS, 1500, 300, 0⟩, ⟨5, .DPS, 1500, 400, 0⟩]))).take
            (dpsNeeded 2), false⟩ ∧
    (⟨1, .HEALER, 1500, 0, 0⟩ : QueuedCandidate)
      ∈ (SelectCandidates ([] ++ ⟨1, .HEALER, 1500, 0, 0⟩ :: ([]
        ++ ⟨2, .HEALER, 1400, 100, 0⟩ :: [⟨3, .DPS, 1500, 200, 0⟩,
          ⟨4, .DPS, 1500, 300, 0⟩, ⟨5, .DPS, 1500, 400, 0⟩]))
        2 true 60000 60000 100000).selected := by
  have h := select_fifo_fairness [] []
    [⟨3, .DPS, 1500, 200, 0⟩, ⟨4, .DPS, 1500, 300, 0⟩,
     ⟨5, .DPS, 1500, 400, 0⟩]
    ⟨1, .HEALER, 1500, 0, 0⟩ ⟨2, .HEALER, 1400, 100, 0⟩
    2 60000 60000 100000 (by decide) (by decide) rfl
  exact ⟨h.1 (by decide), h.2.1 (by decide) (by decide)⟩

end ArenaSolo
